import Mathlib

/-!
# Verification of the devinit scaffolding engine

Shallow embedding of the devinit repository's core logic:

* `internal/validator` — version parsing (`parseVersion`), constraint
  comparison (`CompareVersion`), and requirement validation (`Validate`);
* `internal/template/util.go` — the four name-casing transforms;
* `internal/template/renderer.go` — `ShouldRender` / `GetOutputFilename`;
* `internal/generator/generator.go` — variable merge, rendering context,
  condition evaluation, and the `Generate` driver (modelled as an explicit
  trace of filesystem actions).

Strings are embedded as `List Char` (a faithful rune-level view; all the
inputs exercised here are ASCII, where Go's byte-level and rune-level
indexing agree).  Character classification (`unicode.IsUpper`,
`unicode.ToLower`, `unicode.ToUpper`, whitespace) is modelled on the ASCII
range, which covers every character class the source manipulates.
-/

/-! ## Character model -/

/-- ASCII model of Go `unicode.IsUpper`. -/
def isUpperChar (c : Char) : Bool := 65 ≤ c.toNat && c.toNat ≤ 90

/-- ASCII model of Go `unicode.ToLower`. -/
def toLowerChar (c : Char) : Char :=
  if isUpperChar c then Char.ofNat (c.toNat + 32) else c

/-- ASCII model of Go `unicode.ToUpper`. -/
def toUpperChar (c : Char) : Char :=
  if 97 ≤ c.toNat && c.toNat ≤ 122 then Char.ofNat (c.toNat - 32) else c

/-- Model of Go `unicode.IsSpace` on the ASCII range (the only whitespace
the source ever meets). -/
def isSpaceChar (c : Char) : Bool :=
  c = ' ' || c = '\t' || c = '\n' || c = '\r' || c = '\x0b' || c = '\x0c'

/-- ASCII decimal digit test, as used by `strconv.Atoi`. -/
def isDigitChar (c : Char) : Bool := 48 ≤ c.toNat && c.toNat ≤ 57

/-! ## List-of-characters utilities (models of Go `strings` helpers) -/

/-- Model of `strings.TrimSpace`: drop leading and trailing whitespace. -/
def trimSpace (l : List Char) : List Char :=
  ((l.dropWhile isSpaceChar).reverse.dropWhile isSpaceChar).reverse

/-- Model of `strings.Split(s, sep)` for a one-character separator. -/
def splitOnChar (sep : Char) : List Char → List (List Char)
  | [] => [[]]
  | c :: cs =>
    match splitOnChar sep cs with
    | [] => [[]]
    | p :: ps => if c = sep then [] :: p :: ps else (c :: p) :: ps

/-- Model of `strings.ReplaceAll(s, old, new)` for one-character arguments. -/
def replaceAllChar (a b : Char) (l : List Char) : List Char :=
  l.map fun c => if c = a then b else c

/-- Model of `strconv.Atoi` (minus the 64-bit overflow failure, which no
version component in scope approaches): optional sign, then at least one
ASCII digit and nothing else. -/
def Atoi (l : List Char) : Option Int :=
  let (sign, digits) : Int × List Char :=
    match l with
    | '+' :: r => (1, r)
    | '-' :: r => (-1, r)
    | r => (1, r)
  if digits.isEmpty then none
  else if digits.all isDigitChar then
    some (sign * (digits.foldl (fun n c => 10 * n + ((c.toNat : Int) - 48)) 0))
  else none

/-! ## VersionComparator (`internal/validator`, `system.go`) -/

/-- `strings.TrimPrefix(version, "v")`: strip one leading `v`. -/
def stripLeadingV (version : List Char) : List Char :=
  match version with
  | 'v' :: r => r
  | r => r

/-- The `for i := 0; i < 3` loop of `parseVersion`: convert the first
three components with `strconv.Atoi`, defaulting a missing component to
`0`.  Components beyond the third are never inspected. -/
def parseVersionParts (parts : List (List Char)) : Option (Int × Int × Int) :=
  let comp : Nat → Option Int := fun i =>
    match parts.get? i with
    | some p => Atoi p
    | none => some 0
  match comp 0, comp 1, comp 2 with
  | some a, some b, some c => some (a, b, c)
  | _, _, _ => none

/-- `parseVersion` parses a version string into `(major, minor, patch)`:
strip one leading `v`, split on `"."`, convert the first three
components. -/
def parseVersion (version : List Char) : Option (Int × Int × Int) :=
  parseVersionParts (splitOnChar '.' (stripLeadingV version))

/-- `compareVersionParts`: three-way lexicographic comparison, returning
`-1`, `0`, or `1`. -/
def compareVersionParts (v1 v2 : Int × Int × Int) : Int :=
  if v1.1 < v2.1 then -1
  else if v2.1 < v1.1 then 1
  else if v1.2.1 < v2.2.1 then -1
  else if v2.2.1 < v1.2.1 then 1
  else if v1.2.2 < v2.2.2 then -1
  else if v2.2.2 < v1.2.2 then 1
  else 0

/-- The constraint operators recognised by `CompareVersion`.  (The Go
`switch` has a `default: unknown operator` arm, but `operator` is always
assigned one of these seven values beforehand, so that arm is dead.) -/
inductive VersionOp
  | opGe | opLe | opGt | opLt | opEq | opCaret | opTilde
deriving DecidableEq, Repr

/-- Model of `strings.HasPrefix` (recursing on the candidate first, so
that it reduces even when the subject has an opaque tail). -/
def startsWithChars : List Char → List Char → Bool
  | [], _ => true
  | _ :: _, [] => false
  | a :: as, b :: bs => a == b && startsWithChars as bs

/-- Operator detection of `CompareVersion`: test the (trimmed) requirement
for each leading operator in source order; no operator means exact match. -/
def parseOperator (requirement : List Char) : VersionOp × List Char :=
  if startsWithChars ('>' :: '=' :: []) requirement then
    (.opGe, trimSpace (requirement.drop 2))
  else if startsWithChars ('<' :: '=' :: []) requirement then
    (.opLe, trimSpace (requirement.drop 2))
  else if startsWithChars ('>' :: []) requirement then
    (.opGt, trimSpace (requirement.drop 1))
  else if startsWithChars ('<' :: []) requirement then
    (.opLt, trimSpace (requirement.drop 1))
  else if startsWithChars ('=' :: []) requirement then
    (.opEq, trimSpace (requirement.drop 1))
  else if startsWithChars ('^' :: []) requirement then
    (.opCaret, trimSpace (requirement.drop 1))
  else if startsWithChars ('~' :: []) requirement then
    (.opTilde, trimSpace (requirement.drop 1))
  else
    (.opEq, requirement)

/-- `CompareVersion(current, requirement)`: parse the operator and both
versions, then decide the constraint.  `none` models the error return
(either side failing to parse). -/
def CompareVersion (current requirement : List Char) : Option Bool :=
  let requirement := trimSpace requirement
  let operator := (parseOperator requirement).1
  let requiredVersion := (parseOperator requirement).2
  match parseVersion current, parseVersion requiredVersion with
  | some currentParts, some requiredParts =>
    let comparison := compareVersionParts currentParts requiredParts
    some (match operator with
      | .opGe => decide (0 ≤ comparison)
      | .opGt => decide (0 < comparison)
      | .opLe => decide (comparison ≤ 0)
      | .opLt => decide (comparison < 0)
      | .opEq => decide (comparison = 0)
      | .opCaret =>
        if comparison < 0 then false
        else decide (currentParts.1 = requiredParts.1)
      | .opTilde =>
        if comparison < 0 then false
        else decide (currentParts.1 = requiredParts.1 ∧
                     currentParts.2.1 = requiredParts.2.1))
  | _, _ => none

/-- String-level entry point, named after the spec's `Satisfies`. -/
def Satisfies (current requirement : String) : Option Bool :=
  CompareVersion current.data requirement.data

example : Satisfies "1.2.4" "^1.2.3" = some true := by decide
example : Satisfies "2.0.0" "^1.2.3" = some false := by decide
example : Satisfies "1.3.0" "~1.2.3" = some false := by decide
example : Satisfies "1.2.4" "~1.2.3" = some true := by decide
example : Satisfies "3.11.5" ">=3.11.0" = some true := by decide
example : parseVersion "1.2.3.x".data = some (1, 2, 3) := by decide
example : parseVersion "not.a.version".data = none := by decide
example : parseVersion "v1.2.3".data = some (1, 2, 3) := by decide
example : parseVersion "20.0".data = some (20, 0, 0) := by decide
example : parseVersion "3".data = some (3, 0, 0) := by decide
example : parseVersion "".data = none := by decide

/-! ## RequirementChecker (`internal/validator`) -/

/-- `ValidationLevel` from `internal/validator/types.go`. -/
inductive ValidationLevel
  | ValidationNone
  | ValidationBasic
  | ValidationStrict
deriving DecidableEq, Repr

/-- `Requirement` from `internal/validator/types.go`. -/
structure Requirement where
  Command : String
  Version : String
  Required : Bool
  When : String
  InstallHint : String
deriving DecidableEq, Repr

/-- `ValidationError` from `internal/validator/types.go`. -/
structure ValidationError where
  Command : String
  Message : String
  InstallHint : String
deriving DecidableEq, Repr

/-- `ValidationResult` from `internal/validator/types.go`. -/
structure ValidationResult where
  Errors : List ValidationError
  Warnings : List ValidationError
deriving DecidableEq, Repr

/-- The ambient system probed by `CheckCommand`: whether `exec.LookPath`
resolves a command, and the version string `getCommandVersion` reports for
it (the empty string when no version could be determined). -/
structure SystemEnv where
  lookPathOk : String → Bool
  reportedVersion : String → String

/-- `CheckCommand`: absence is reported as `(false, "")` with no error;
when present, the reported version is attached.  The Go function's `error`
return is always `nil`, so it is not modelled. -/
def CheckCommand (sys : SystemEnv) (cmd : String) : Bool × String :=
  if sys.lookPathOk cmd then (true, sys.reportedVersion cmd) else (false, "")

/-- One iteration of the `Validate` loop, returning the errors and warnings
contributed by a single requirement.  (The `err != nil` branch after
`CheckCommand` is dead code — `CheckCommand` never returns an error — and
the `When` field is never consulted, per the `TODO` in the source.) -/
def checkRequirement (level : ValidationLevel) (sys : SystemEnv)
    (req : Requirement) : List ValidationError × List ValidationError :=
  let found := CheckCommand sys req.Command
  if found.1 = false then
    let valErr : ValidationError :=
      { Command := req.Command
        Message := req.Command ++ " not found"
        InstallHint := req.InstallHint }
    if req.Required then ([valErr], []) else ([], [valErr])
  else if req.Version ≠ "" ∧ found.2 ≠ "" then
    match CompareVersion found.2.data req.Version.data with
    | none =>
      let valErr : ValidationError :=
        { Command := req.Command
          Message := "error comparing " ++ req.Command ++ " version"
          InstallHint := req.InstallHint }
      if level = .ValidationStrict then ([valErr], []) else ([], [valErr])
    | some ok =>
      if ok then ([], [])
      else
        let valErr : ValidationError :=
          { Command := req.Command
            Message := req.Command ++ " version " ++ found.2 ++
              " does not match requirement " ++ req.Version
            InstallHint := req.InstallHint }
        if level = .ValidationStrict then ([valErr], []) else ([], [valErr])
  else ([], [])

/-- The loop body of `Validate`: append one requirement's findings to the
accumulated result. -/
def validateStep (level : ValidationLevel) (sys : SystemEnv)
    (result : ValidationResult) (req : Requirement) : ValidationResult :=
  let found := checkRequirement level sys req
  { Errors := result.Errors ++ found.1
    Warnings := result.Warnings ++ found.2 }

/-- `Validate` walks the requirement list, appending each requirement's
errors and warnings to the accumulated result. -/
def Validate (level : ValidationLevel) (sys : SystemEnv)
    (reqs : List Requirement) : ValidationResult :=
  reqs.foldl (validateStep level sys) { Errors := [], Warnings := [] }

/-! ## NameCasing (`internal/template/util.go`) -/

/-- The boundary-marking loop shared by `toSnakeCase` and `toKebabCase`:
write `sep` before every uppercase rune except at index 0, and lowercase
every rune. -/
def insertSepLower (sep : Char) : List Char → List Char
  | [] => []
  | c :: cs =>
    toLowerChar c ::
      cs.flatMap fun d =>
        if isUpperChar d then [sep, toLowerChar d] else [toLowerChar d]

/-- The final regexp replacement in `toSnakeCase`/`toKebabCase`: collapse
every run of consecutive `sep` characters to a single `sep`. -/
def collapseRuns (sep : Char) : List Char → List Char
  | [] => []
  | [c] => [c]
  | c :: d :: cs =>
    if c = sep ∧ d = sep then collapseRuns sep (d :: cs)
    else c :: collapseRuns sep (d :: cs)

/-- `toSnakeCase`: hyphens to underscores, underscore before embedded
uppercase runes, lowercase, collapse repeated underscores. -/
def toSnakeCase (s : String) : String :=
  ⟨collapseRuns '_' (insertSepLower '_' (replaceAllChar '-' '_' s.data))⟩

/-- `toKebabCase`: the mirror image of `toSnakeCase` with hyphens. -/
def toKebabCase (s : String) : String :=
  ⟨collapseRuns '-' (insertSepLower '-' (replaceAllChar '_' '-' s.data))⟩

/-- A separator of the splitting regexp `[-_\s]+` used by `toCamelCase`
and `toPascalCase` (`\s` is the RE2 class `[\t\n\f\r ]`). -/
def isSepChar (c : Char) : Bool :=
  c = '-' || c = '_' || c = ' ' || c = '\t' || c = '\n' || c = '\x0c' || c = '\r'

/-- Model of `regexp.MustCompile(...).Split(s, -1)` on `[-_\s]+`: split on
maximal separator runs; a leading/trailing run contributes an empty part.
A separator that extends a run (the next character is also a separator)
emits no new boundary. -/
def splitSeps (l : List Char) : List (List Char) :=
  match l with
  | [] => [[]]
  | c :: cs =>
    match splitSeps cs with
    | [] => [[]]
    | p :: ps =>
      if isSepChar c then
        match cs with
        | d :: _ => if isSepChar d then p :: ps else [] :: p :: ps
        | [] => [] :: p :: ps
      else (c :: p) :: ps

/-- `strings.ToLower` (ASCII model). -/
def toLowerAll : List Char → List Char := List.map toLowerChar

/-- `capitalize` from `util.go`: uppercase the first rune. -/
def capitalize : List Char → List Char
  | [] => []
  | c :: cs => toUpperChar c :: cs

/-- The joining loop of `toCamelCase`: empty parts are skipped (but still
advance the index), the part at index 0 is fully lowercased, and every
later part is capitalized. -/
def camelConcat : Nat → List (List Char) → List Char
  | _, [] => []
  | i, p :: ps =>
    (if p.isEmpty then [] else if i = 0 then toLowerAll p else capitalize p)
      ++ camelConcat (i + 1) ps

/-- `toCamelCase`.  (The `len(parts) == 0` early return in the source is
dead: the regexp split always yields at least one part.) -/
def toCamelCase (s : String) : String :=
  ⟨camelConcat 0 (splitSeps s.data)⟩

/-- The joining loop of `toPascalCase`: every non-empty part capitalized. -/
def pascalConcat : List (List Char) → List Char
  | [] => []
  | p :: ps => (if p.isEmpty then [] else capitalize p) ++ pascalConcat ps

/-- `toPascalCase`. -/
def toPascalCase (s : String) : String :=
  ⟨pascalConcat (splitSeps s.data)⟩

example : toSnakeCase "MyAPI-Project" = "my_a_p_i_project" := by decide
example : toCamelCase "my-api-project" = "myApiProject" := by decide
example : toPascalCase "my_api_project" = "MyApiProject" := by decide
example : toKebabCase "MyAPIProject" = "my-a-p-i-project" := by decide
example : toCamelCase "a-b" = "aB" := by decide
example : toCamelCase "aB" = "ab" := by decide

/-! ## Renderer (`internal/template/renderer.go`) -/

/-- `ShouldRender`: true iff the filename ends with `.tmpl`. -/
def ShouldRender (filename : String) : Bool :=
  (".tmpl".data).isSuffixOf filename.data

/-- `GetOutputFilename`: `strings.TrimSuffix(filename, ".tmpl")` — strip
one trailing `.tmpl` if present, else return the input unchanged. -/
def GetOutputFilename (filename : String) : String :=
  if (".tmpl".data).isSuffixOf filename.data then
    ⟨filename.data.take (filename.data.length - 5)⟩
  else filename

example : GetOutputFilename "main.py.tmpl" = "main.py" := by decide
example : GetOutputFilename "Dockerfile" = "Dockerfile" := by decide

/-! ## Generator data model (`internal/template/types.go`) -/

/-- The dynamically-typed values held in the variable map
(`map[string]interface{}` restricted to the types the engine reads). -/
inductive Value
  | VString (s : String)
  | VBool (b : Bool)
  | VInt (n : Int)
deriving DecidableEq, Repr

/-- `Variable` from `internal/template/types.go` (fields the engine reads;
the descriptive `Type`/`Choices`/`Pattern`/`Description` strings are never
consulted by `Generate` and are omitted). -/
structure Variable where
  Required : Bool
  Default : Option Value
deriving DecidableEq, Repr

/-- `FileSpec` from `internal/template/types.go`. -/
structure FileSpec where
  Source : String
  Destination : String
  Conditions : List String
  Permissions : String
deriving DecidableEq, Repr

/-- `Template` (the fields `Generate` reads).  `Variables` is the declared
variable map, modelled as a lookup function. -/
structure Template where
  Version : String
  Name : String
  Language : String
  Framework : String
  Variables : String → Option Variable
  Files : List FileSpec
  Path : String

/-- `Context` from `internal/template/types.go` (the stored `*Template`
pointer is carried by the `Generate` model separately). -/
structure Context where
  ProjectName : String
  OutputDir : String
  Variables : String → Option Value
  ProjectNameSnake : String
  ProjectNameCamel : String
  ProjectNamePascal : String
  ProjectNameKebab : String
  PythonVersion : String
  IncludeDocker : Bool
  Database : String
  IncludeTests : Bool
  CIProvider : String

/-- `NewContext`: derive the casing variants and populate the convenience
fields from the well-known keys (a type-mismatched or absent key leaves the
zero value). -/
def NewContext (projectName outputDir : String)
    (vars : String → Option Value) : Context :=
  { ProjectName := projectName
    OutputDir := outputDir
    Variables := vars
    ProjectNameSnake := toSnakeCase projectName
    ProjectNameCamel := toCamelCase projectName
    ProjectNamePascal := toPascalCase projectName
    ProjectNameKebab := toKebabCase projectName
    PythonVersion :=
      match vars "PythonVersion" with
      | some (.VString v) => v
      | _ => ""
    IncludeDocker :=
      match vars "IncludeDocker" with
      | some (.VBool v) => v
      | _ => false
    Database :=
      match vars "Database" with
      | some (.VString v) => v
      | _ => ""
    IncludeTests :=
      match vars "IncludeTests" with
      | some (.VBool v) => v
      | _ => false
    CIProvider :=
      match vars "CIProvider" with
      | some (.VString v) => v
      | _ => "" }

/-- `Context.GetString`: value of a string-typed variable, else `""`. -/
def Context.GetString (c : Context) (key : String) : String :=
  match c.Variables key with
  | some (.VString s) => s
  | _ => ""

/-- `Context.GetBool`: value of a boolean-typed variable, else `false`. -/
def Context.GetBool (c : Context) (key : String) : Bool :=
  match c.Variables key with
  | some (.VBool b) => b
  | _ => false

/-- `Context.GetInt`: value of an integer-typed variable, else `0`. -/
def Context.GetInt (c : Context) (key : String) : Int :=
  match c.Variables key with
  | some (.VInt n) => n
  | _ => 0

/-! ## GenerationEngine (`internal/generator/generator.go`) -/

/-- `Options` for project generation. -/
structure Options where
  ProjectName : String
  Language : String
  Framework : String
  OutputDir : String
  Variables : String → Option Value
  DryRun : Bool

/-- `mergeVariables`: template defaults (for vars that declare one)
overridden by every caller-supplied key. -/
def mergeVariables (tmpl : Template) (userVars : String → Option Value) :
    String → Option Value :=
  fun key =>
    match userVars key with
    | some v => some v
    | none =>
      match tmpl.Variables key with
      | some varDef => varDef.Default
      | none => none

/-- The normalization performed line-by-line at the top of
`evaluateCondition`: trim whitespace (the source trims twice), strip one
surrounding pair of template delimiters and re-trim, then strip one
leading `.`. -/
def normalizeCondition (condition : List Char) : List Char :=
  let condition := trimSpace condition
  let condition := trimSpace condition
  let condition :=
    if ('{' :: '{' :: []).isPrefixOf condition &&
       ('}' :: '}' :: []).isSuffixOf condition then
      trimSpace ((condition.drop 2).take (condition.length - 4))
    else condition
  match condition with
  | '.' :: rest => rest
  | rest => rest

/-- `evaluateCondition`: normalize, special-case the two context fields,
otherwise fall through to `Context.GetBool` on the merged variable map. -/
def evaluateCondition (condition : String) (ctx : Context) : Bool :=
  let key := normalizeCondition condition.data
  if key = "IncludeDocker".data then ctx.IncludeDocker
  else if key = "IncludeTests".data then ctx.IncludeTests
  else ctx.GetBool ⟨key⟩

/-- `shouldGenerateFile`: every condition must hold (an empty list means
always include). -/
def shouldGenerateFile (fileSpec : FileSpec) (ctx : Context) : Bool :=
  fileSpec.Conditions.all fun condition => evaluateCondition condition ctx

/-- Model of `filepath.Join` for the clean relative segments the engine
joins. -/
def joinPath (a b : String) : String := a ++ "/" ++ b

/-- Model of `filepath.Dir`: everything before the final separator. -/
def dirOf (p : String) : String :=
  ⟨(((p.data.reverse.dropWhile fun c => c ≠ '/').drop 1).reverse)⟩

/-- One observable step of a generation run: the three filesystem
mutations (`os.MkdirAll`, the file write inside `RenderToFile`/`CopyFile`,
and the metadata write), and the four progress notices printed by
`Generate`/`generateFile`. -/
inductive FsAction
  | mkdirAll (path : String)
  | writeFile (path : String)
  | writeMetadata (path : String)
  | noticeSkipped (dest : String)
  | noticeWouldRender (source dest : String)
  | noticeWouldCopy (source dest : String)
  | noticeCreated (dest : String)
deriving DecidableEq, Repr

/-- `generateFile`, as the trace of actions it performs.  For a renderable
source the true output path has the `.tmpl` suffix stripped; a dry run
prints the would-be action and stops before any filesystem effect;
otherwise `RenderToFile`/`CopyFile` create the parent directory, write the
file, and a `Created` notice is printed. -/
def generateFile (fileSpec : FileSpec) (ctx : Context) (dryRun : Bool) :
    List FsAction :=
  let destPath := joinPath ctx.OutputDir fileSpec.Destination
  if ShouldRender fileSpec.Source then
    let actualDest := joinPath ctx.OutputDir (GetOutputFilename fileSpec.Destination)
    if dryRun then [.noticeWouldRender fileSpec.Source actualDest]
    else [.mkdirAll (dirOf actualDest), .writeFile actualDest,
          .noticeCreated actualDest]
  else
    if dryRun then [.noticeWouldCopy fileSpec.Source destPath]
    else [.mkdirAll (dirOf destPath), .writeFile destPath,
          .noticeCreated destPath]

/-- The resolved output directory of a run: `opts.OutputDir`, defaulting
to the project name when unset. -/
def resolvedOutputDir (opts : Options) : String :=
  if opts.OutputDir = "" then opts.ProjectName else opts.OutputDir

/-- The rendering context `Generate` builds: merged variables plus the
resolved output directory. -/
def generateCtx (tmpl : Template) (opts : Options) : Context :=
  NewContext opts.ProjectName (resolvedOutputDir opts)
    (mergeVariables tmpl opts.Variables)

/-- The per-file loop of `Generate`: files whose conditions all hold are
processed by `generateFile`; excluded files produce a `Skipped` notice in
a dry run and nothing otherwise. -/
def fileActions (files : List FileSpec) (ctx : Context) (dryRun : Bool) :
    List FsAction :=
  files.flatMap fun fileSpec =>
    if shouldGenerateFile fileSpec ctx then generateFile fileSpec ctx dryRun
    else if dryRun then [FsAction.noticeSkipped fileSpec.Destination]
    else []

/-- `Generate`, modelled over an already-loaded template: build the
context, create the output directory unless dry-run, process every
`FileSpec` in order, and write `.devinit.yaml` unless dry-run. -/
def Generate (tmpl : Template) (opts : Options) : List FsAction :=
  let outputDir := resolvedOutputDir opts
  let ctx := generateCtx tmpl opts
  (if opts.DryRun then [] else [FsAction.mkdirAll outputDir])
  ++ fileActions tmpl.Files ctx opts.DryRun
  ++ (if opts.DryRun then []
      else [FsAction.writeMetadata (joinPath outputDir ".devinit.yaml")])

/-- Does an action mutate the filesystem? -/
def FsAction.isMutation : FsAction → Bool
  | .mkdirAll _ => true
  | .writeFile _ => true
  | .writeMetadata _ => true
  | _ => false

/-- The files a dry run reports it would render or copy. -/
def reportedTargets (trace : List FsAction) : List String :=
  trace.flatMap fun a =>
    match a with
    | .noticeWouldRender _ dest => [dest]
    | .noticeWouldCopy _ dest => [dest]
    | _ => []

/-- The project files a real run actually writes (the metadata file is a
separate `writeMetadata` action, so it is excluded by construction). -/
def writtenTargets (trace : List FsAction) : List String :=
  trace.flatMap fun a =>
    match a with
    | .writeFile dest => [dest]
    | _ => []

/-- The per-file inclusion decisions of a run, in declaration order. -/
def inclusionDecisions (tmpl : Template) (opts : Options) : List Bool :=
  tmpl.Files.map fun fileSpec => shouldGenerateFile fileSpec (generateCtx tmpl opts)

/-! ## Claim C4 — concrete casing values -/

/-- C4 (counterexample): the claimed value `toSnake("MyAPI-Project") =
"my_api_project"` is false — the loop writes a separator before *every*
uppercase rune, so the uppercase run `API` contributes one underscore per
letter. -/
theorem C4_snake_counterexample :
    toSnakeCase "MyAPI-Project" ≠ "my_api_project" := by decide

/-- C4 (amended): the four casing transforms produce
`toSnake("MyAPI-Project") = "my_a_p_i_project"` (each uppercase rune after
index 0 yields a separator, and the `-` becomes `_`, with the resulting
run of underscores collapsed), `toCamel("my-api-project") =
"myApiProject"`, `toPascal("my_api_project") = "MyApiProject"`, and
`toKebab("MyAPIProject") = "my-a-p-i-project"`. -/
theorem C4_casing_values :
    toSnakeCase "MyAPI-Project" = "my_a_p_i_project" ∧
    toCamelCase "my-api-project" = "myApiProject" ∧
    toPascalCase "my_api_project" = "MyApiProject" ∧
    toKebabCase "MyAPIProject" = "my-a-p-i-project" := by
  refine ⟨by decide, by decide, by decide, by decide⟩

/-! ## Claim C7 — OutputFilename idempotence -/

/-- C7 (counterexample): `GetOutputFilename` strips one `.tmpl` suffix per
application, so on `"a.tmpl.tmpl"` applying it twice differs from applying
it once. -/
theorem C7_counterexample :
    GetOutputFilename (GetOutputFilename "a.tmpl.tmpl") ≠
      GetOutputFilename "a.tmpl.tmpl" := by decide

/-- A name that does not end in `.tmpl` passes through unchanged. -/
theorem getOutputFilename_eq_self (filename : String)
    (h : ShouldRender filename = false) : GetOutputFilename filename = filename := by
  simp only [ShouldRender] at h
  simp [GetOutputFilename, h]

/-- C7 (amended): `GetOutputFilename` returns any filename not ending in
`.tmpl` unchanged, and applying it twice agrees with applying it once
whenever the once-stripped result does not itself end in `.tmpl`. -/
theorem C7_output_filename (filename : String) :
    (ShouldRender filename = false → GetOutputFilename filename = filename) ∧
    (ShouldRender (GetOutputFilename filename) = false →
      GetOutputFilename (GetOutputFilename filename) = GetOutputFilename filename) :=
  ⟨getOutputFilename_eq_self filename, getOutputFilename_eq_self _⟩

/-- C7 (witness): instantiation at `"main.py.tmpl"`, whose stripped form
`"main.py"` does not end in `.tmpl`. -/
theorem C7_output_filename_witness :
    ShouldRender (GetOutputFilename "main.py.tmpl") = false ∧
    GetOutputFilename (GetOutputFilename "main.py.tmpl") =
      GetOutputFilename "main.py.tmpl" :=
  ⟨by decide, (C7_output_filename "main.py.tmpl").2 (by decide)⟩

/-! ## Claim C8 — the three surface forms of a condition agree -/

/-- C8: for every rendering context, the delimited form, the bare
field-access form, and the bare name of `IncludeDocker` normalize to the
same key and `evaluateCondition` returns the same boolean (the context's
`IncludeDocker` field) for all three. -/
theorem C8_condition_surface_forms (ctx : Context) :
    normalizeCondition "{{ .IncludeDocker }}".data = "IncludeDocker".data ∧
    normalizeCondition ".IncludeDocker".data = "IncludeDocker".data ∧
    normalizeCondition "IncludeDocker".data = "IncludeDocker".data ∧
    evaluateCondition "{{ .IncludeDocker }}" ctx = ctx.IncludeDocker ∧
    evaluateCondition ".IncludeDocker" ctx = ctx.IncludeDocker ∧
    evaluateCondition "IncludeDocker" ctx = ctx.IncludeDocker := by
  refine ⟨by decide, by decide, by decide, rfl, rfl, rfl⟩

/-! ## Validator lemmas -/

/-- Unfolding the fold of `Validate` one requirement at a time. -/
theorem validate_foldl (level : ValidationLevel) (sys : SystemEnv) :
    ∀ (reqs : List Requirement) (acc : ValidationResult),
      reqs.foldl (validateStep level sys) acc =
        { Errors := acc.Errors ++ (Validate level sys reqs).Errors
          Warnings := acc.Warnings ++ (Validate level sys reqs).Warnings } := by
  intro reqs
  induction reqs with
  | nil => intro acc; simp [Validate]
  | cons r rs ih =>
    intro acc
    simp only [Validate, List.foldl_cons] at *
    rw [ih, ih (validateStep level sys { Errors := [], Warnings := [] } r)]
    simp [validateStep]

/-- Each requirement contributes its own findings, in order. -/
theorem Validate_cons (level : ValidationLevel) (sys : SystemEnv)
    (req : Requirement) (reqs : List Requirement) :
    Validate level sys (req :: reqs) =
      { Errors := (checkRequirement level sys req).1 ++ (Validate level sys reqs).Errors
        Warnings := (checkRequirement level sys req).2 ++ (Validate level sys reqs).Warnings } := by
  simp only [Validate, List.foldl_cons]
  rw [validate_foldl]
  simp [validateStep, Validate]

/-! ## Claim C9 — `When` is never consulted -/

/-- `checkRequirement` does not read the `When` field. -/
theorem checkRequirement_ignores_when (level : ValidationLevel)
    (sys : SystemEnv) (req : Requirement) (w : String) :
    checkRequirement level sys { req with When := w } =
      checkRequirement level sys req := rfl

/-- C9: `Validate` is independent of every requirement's `When` field —
rewriting each `When` value by an arbitrary function leaves the produced
errors and warnings unchanged. -/
theorem C9_when_independent (level : ValidationLevel) (sys : SystemEnv)
    (reqs : List Requirement) (f : Requirement → String) :
    Validate level sys (reqs.map fun r => { r with When := f r }) =
      Validate level sys reqs := by
  induction reqs with
  | nil => rfl
  | cons r rs ih =>
    rw [List.map_cons, Validate_cons, Validate_cons, ih,
      checkRequirement_ignores_when]

/-! ## Claim C2 — severity policy of `Validate` -/

/-- C2: an absent command contributes exactly one finding — an error iff
the requirement is `Required`, else a warning; a version-constraint
mismatch for a present command that reports a version contributes exactly
one finding — an error iff the level is the strict tier, regardless of
`Required`; and every requirement's contribution is independent of the
rest of the list. -/
theorem C2_severity_policy (level : ValidationLevel) (sys : SystemEnv)
    (req : Requirement) :
    (sys.lookPathOk req.Command = false →
      (Validate level sys [req]).Errors.length = (if req.Required then 1 else 0) ∧
      (Validate level sys [req]).Warnings.length = (if req.Required then 0 else 1))
    ∧
    (sys.lookPathOk req.Command = true →
      req.Version ≠ "" →
      sys.reportedVersion req.Command ≠ "" →
      CompareVersion (sys.reportedVersion req.Command).data req.Version.data =
        some false →
      (Validate level sys [req]).Errors.length =
        (if level = .ValidationStrict then 1 else 0) ∧
      (Validate level sys [req]).Warnings.length =
        (if level = .ValidationStrict then 0 else 1))
    ∧
    (∀ reqs : List Requirement,
      (Validate level sys (req :: reqs)).Errors =
        (checkRequirement level sys req).1 ++ (Validate level sys reqs).Errors ∧
      (Validate level sys (req :: reqs)).Warnings =
        (checkRequirement level sys req).2 ++ (Validate level sys reqs).Warnings) := by
  refine ⟨?_, ?_, ?_⟩
  · intro h
    rw [Validate_cons]
    simp only [Validate, List.foldl_nil, List.append_nil]
    simp only [checkRequirement, CheckCommand, h]
    by_cases hr : req.Required <;> simp [hr]
  · intro h hv hrep hcmp
    rw [Validate_cons]
    simp only [Validate, List.foldl_nil, List.append_nil]
    simp only [checkRequirement, CheckCommand, h]
    simp only [if_true, hv, hrep, ne_eq, not_false_iff, and_self, if_pos, hcmp]
    by_cases hl : level = ValidationLevel.ValidationStrict <;> simp [hl]
  · intro reqs
    rw [Validate_cons]
    exact ⟨rfl, rfl⟩

/-- A system on which no command resolves. -/
def sysAllAbsent : SystemEnv := ⟨fun _ => false, fun _ => ""⟩

/-- A system on which every command resolves and reports version 1.0.0. -/
def sysAllPresent : SystemEnv := ⟨fun _ => true, fun _ => "1.0.0"⟩

/-- A required requirement on the `go` command. -/
def reqGoRequired : Requirement :=
  { Command := "go", Version := "", Required := true, When := ""
    InstallHint := "install go" }

/-- An optional requirement pinning `node` to at least 2.0.0. -/
def reqNodeOptional : Requirement :=
  { Command := "node", Version := ">=2.0.0", Required := false, When := ""
    InstallHint := "" }

/-- C2 (witness): on a system with no `go`, a required `go` requirement
yields exactly one error and no warning; on a system whose `node` reports
1.0.0 against `>=2.0.0`, strict validation yields exactly one error and no
warning even though the requirement is optional. -/
theorem C2_severity_policy_witness :
    sysAllAbsent.lookPathOk "go" = false ∧
    (Validate .ValidationBasic sysAllAbsent [reqGoRequired]).Errors.length = 1 ∧
    (Validate .ValidationBasic sysAllAbsent [reqGoRequired]).Warnings.length = 0 ∧
    sysAllPresent.lookPathOk "node" = true ∧
    CompareVersion "1.0.0".data ">=2.0.0".data = some false ∧
    (Validate .ValidationStrict sysAllPresent [reqNodeOptional]).Errors.length = 1 ∧
    (Validate .ValidationStrict sysAllPresent [reqNodeOptional]).Warnings.length = 0 :=
  ⟨rfl,
    ((C2_severity_policy .ValidationBasic sysAllAbsent reqGoRequired).1 rfl).1,
    ((C2_severity_policy .ValidationBasic sysAllAbsent reqGoRequired).1 rfl).2,
    rfl,
    by decide,
    ((C2_severity_policy .ValidationStrict sysAllPresent reqNodeOptional).2.1 rfl
      (by decide) (by decide) (by decide)).1,
    ((C2_severity_policy .ValidationStrict sysAllPresent reqNodeOptional).2.1 rfl
      (by decide) (by decide) (by decide)).2⟩

/-! ## Claim C10 — complete characterization of `evaluateCondition` -/

/-- `GetBool` is `true` exactly on keys bound to the boolean `true`. -/
theorem getBool_eq_true_iff (c : Context) (key : String) :
    c.GetBool key = true ↔ c.Variables key = some (Value.VBool true) := by
  unfold Context.GetBool
  cases h : c.Variables key with
  | none => simp
  | some v => cases v <;> simp

/-- C10: `evaluateCondition` returns `true` exactly when the normalized
condition is the special key `IncludeDocker`/`IncludeTests` with the
corresponding context field true, or any other key bound to the boolean
`true` in the merged variable map.  Consequently a compound expression
such as `database != 'none'` (absent from the map as a literal key) and a
key bound to the *string* `"true"` both evaluate to `false`, and a file
carrying such a condition is never generated. -/
theorem C10_condition_only_boolean_keys (ctx : Context) (condition : String) :
    (evaluateCondition condition ctx = true ↔
      (normalizeCondition condition.data = "IncludeDocker".data ∧
        ctx.IncludeDocker = true) ∨
      (normalizeCondition condition.data = "IncludeTests".data ∧
        ctx.IncludeTests = true) ∨
      (normalizeCondition condition.data ≠ "IncludeDocker".data ∧
       normalizeCondition condition.data ≠ "IncludeTests".data ∧
       ctx.Variables ⟨normalizeCondition condition.data⟩ =
         some (Value.VBool true)))
    ∧ (ctx.Variables "database != \x27none\x27" = none →
        evaluateCondition "database != \x27none\x27" ctx = false)
    ∧ (ctx.Variables "x" = some (Value.VString "true") →
        evaluateCondition "x" ctx = false)
    ∧ (∀ fileSpec : FileSpec, condition ∈ fileSpec.Conditions →
        evaluateCondition condition ctx = false →
        shouldGenerateFile fileSpec ctx = false) := by
  refine ⟨?_, ?_, ?_, ?_⟩
  · unfold evaluateCondition
    by_cases h1 : normalizeCondition condition.data = "IncludeDocker".data
    · have h2 : normalizeCondition condition.data ≠ "IncludeTests".data := by
        rw [h1]; decide
      simp [h1, h2]
    · by_cases h2 : normalizeCondition condition.data = "IncludeTests".data
      · simp [h1, h2]
      · simp [h1, h2, getBool_eq_true_iff]
  · intro h
    have : evaluateCondition "database != \x27none\x27" ctx =
        ctx.GetBool "database != \x27none\x27" := rfl
    rw [this]
    unfold Context.GetBool
    rw [h]
  · intro h
    have : evaluateCondition "x" ctx = ctx.GetBool "x" := rfl
    rw [this]
    unfold Context.GetBool
    rw [h]
  · intro fileSpec hmem hfalse
    unfold shouldGenerateFile
    rw [List.all_eq_false]
    exact ⟨condition, hmem, by simp [hfalse]⟩

/-- A demonstration context whose variable map binds only the key `"x"`,
to the *string* `"true"`. -/
def ctxStringTrue : Context :=
  NewContext "demo" "demo"
    (fun k => if k = "x" then some (.VString "true") else none)

/-- C10 (witness): in `ctxStringTrue` the key `"x"` is bound to the string
`"true"`, and the condition `"x"` still evaluates to `false`. -/
theorem C10_condition_only_boolean_keys_witness :
    ctxStringTrue.Variables "x" = some (Value.VString "true") ∧
    evaluateCondition "x" ctxStringTrue = false :=
  ⟨rfl, (C10_condition_only_boolean_keys ctxStringTrue "x").2.2.1 rfl⟩


/-! ## Claim C3 — dry run is a faithful, effect-free simulation -/

/-- A dry-run `generateFile` performs no filesystem mutation. -/
theorem generateFile_dry_no_mutation (fileSpec : FileSpec) (ctx : Context) :
    ∀ a ∈ generateFile fileSpec ctx true, a.isMutation = false := by
  unfold generateFile
  split <;> intro a ha <;> simp at ha <;> simp [ha, FsAction.isMutation]

/-- The file a dry run reports for one spec is exactly the file a real run
writes for that spec. -/
theorem generateFile_dry_matches_real (fileSpec : FileSpec) (ctx : Context) :
    reportedTargets (generateFile fileSpec ctx true) =
      writtenTargets (generateFile fileSpec ctx false) := by
  unfold generateFile reportedTargets writtenTargets
  split <;> simp

/-- A dry-run file loop performs no filesystem mutation. -/
theorem fileActions_dry_no_mutation (files : List FileSpec) (ctx : Context) :
    ∀ a ∈ fileActions files ctx true, a.isMutation = false := by
  intro a ha
  unfold fileActions at ha
  rw [List.mem_flatMap] at ha
  obtain ⟨fileSpec, _, hin⟩ := ha
  by_cases hg : shouldGenerateFile fileSpec ctx = true
  · rw [if_pos hg] at hin
    exact generateFile_dry_no_mutation _ _ a hin
  · rw [if_neg hg, if_pos rfl] at hin
    simp at hin
    simp [hin, FsAction.isMutation]

/-- Dry-run reported targets equal real-run written targets, file by
file. -/
theorem fileActions_dry_matches_real (files : List FileSpec) (ctx : Context) :
    reportedTargets (fileActions files ctx true) =
      writtenTargets (fileActions files ctx false) := by
  induction files with
  | nil => rfl
  | cons fileSpec rest ih =>
    unfold fileActions at *
    rw [List.flatMap_cons, List.flatMap_cons]
    unfold reportedTargets writtenTargets at *
    rw [List.flatMap_append, List.flatMap_append, ih]
    congr 1
    by_cases hg : shouldGenerateFile fileSpec ctx = true
    · rw [if_pos hg, if_pos hg]
      exact generateFile_dry_matches_real fileSpec ctx
    · rw [if_neg hg, if_neg hg, if_pos rfl]
      rfl

/-- C3: with `DryRun = true`, `Generate` creates no directory, writes no
project file and writes no metadata file; the inclusion decisions are
evaluated exactly as a real run evaluates them; and the files the dry run
reports as would-be rendered/copied equal the files the real run writes
(the metadata file is a separate `writeMetadata` action and so excluded). -/
theorem C3_dry_run_frame (tmpl : Template) (opts : Options) :
    (∀ a ∈ Generate tmpl { opts with DryRun := true }, a.isMutation = false) ∧
    (inclusionDecisions tmpl { opts with DryRun := true } =
      inclusionDecisions tmpl { opts with DryRun := false }) ∧
    (reportedTargets (Generate tmpl { opts with DryRun := true }) =
      writtenTargets (Generate tmpl { opts with DryRun := false })) := by
  have hdry : Generate tmpl { opts with DryRun := true } =
      fileActions tmpl.Files (generateCtx tmpl opts) true := by
    show [] ++ _ ++ [] = _
    rw [List.nil_append, List.append_nil]
    rfl
  have hreal : Generate tmpl { opts with DryRun := false } =
      [FsAction.mkdirAll (resolvedOutputDir opts)]
        ++ fileActions tmpl.Files (generateCtx tmpl opts) false
        ++ [FsAction.writeMetadata
            (joinPath (resolvedOutputDir opts) ".devinit.yaml")] := rfl
  refine ⟨?_, rfl, ?_⟩
  · intro a ha
    rw [hdry] at ha
    exact fileActions_dry_no_mutation _ _ a ha
  · rw [hdry, hreal]
    unfold writtenTargets
    rw [List.flatMap_append, List.flatMap_append]
    simp only [List.flatMap_cons, List.flatMap_nil]
    rw [fileActions_dry_matches_real]
    simp [writtenTargets]

/-! ## Claim C6 — `parseVersion` failure condition -/

/-- The claim's reading of `Parse`, modelled from the spec sentence: strip
one leading `v`, split on `.`, fill major/minor/patch left-to-right with
missing trailing components defaulting to 0, and fail iff *any* present
component is non-numeric. -/
def specParseVersionParts (parts : List (List Char)) : Option (Int × Int × Int) :=
  if parts.all (fun p => (Atoi p).isSome) then
    let comp : Nat → Int := fun i =>
      match parts.get? i with
      | some p => (Atoi p).getD 0
      | none => 0
    some (comp 0, comp 1, comp 2)
  else none

/-- String-level form of the claim's `Parse`. -/
def specParseVersion (version : List Char) : Option (Int × Int × Int) :=
  specParseVersionParts (splitOnChar '.' (stripLeadingV version))

/-- C6 (counterexample): `"1.2.3.x"` has the present non-numeric component
`"x"`, yet `parseVersion` succeeds (the loop stops at the third
component), contradicting the claimed failure condition. -/
theorem C6_counterexample :
    parseVersion "1.2.3.x".data = some (1, 2, 3) ∧
    Atoi "x".data = none ∧
    specParseVersion "1.2.3.x".data = none := by
  refine ⟨by decide, by decide, by decide⟩

/-- On at most three components, the loop and the claim agree. -/
theorem parseVersionParts_eq_spec (parts : List (List Char))
    (h : parts.length ≤ 3) :
    parseVersionParts parts = specParseVersionParts parts := by
  match parts, h with
  | [], _ => rfl
  | [p0], _ =>
    simp only [parseVersionParts, specParseVersionParts, List.all_cons,
      List.all_nil, List.get?]
    cases h0 : Atoi p0 <;> simp [h0]
  | [p0, p1], _ =>
    simp only [parseVersionParts, specParseVersionParts, List.all_cons,
      List.all_nil, List.get?]
    cases h0 : Atoi p0 <;> cases h1 : Atoi p1 <;> simp [h0, h1]
  | [p0, p1, p2], _ =>
    simp only [parseVersionParts, specParseVersionParts, List.all_cons,
      List.all_nil, List.get?]
    cases h0 : Atoi p0 <;> cases h1 : Atoi p1 <;> cases h2 : Atoi p2 <;>
      simp [h0, h1, h2]
  | p0 :: p1 :: p2 :: p3 :: rest, h => simp at h

/-- The loop succeeds iff the first three components all convert. -/
theorem parseVersionParts_isSome (parts : List (List Char)) :
    (parseVersionParts parts).isSome =
      ((parts.take 3).all fun p => (Atoi p).isSome) := by
  match parts with
  | [] => rfl
  | [p0] =>
    simp only [parseVersionParts, List.take, List.all_cons, List.all_nil,
      List.get?]
    cases h0 : Atoi p0 <;> simp [h0]
  | [p0, p1] =>
    simp only [parseVersionParts, List.take, List.all_cons, List.all_nil,
      List.get?]
    cases h0 : Atoi p0 <;> cases h1 : Atoi p1 <;> simp [h0, h1]
  | p0 :: p1 :: p2 :: rest =>
    simp only [parseVersionParts, List.take, List.all_cons, List.all_nil,
      List.get?]
    cases h0 : Atoi p0 <;> cases h1 : Atoi p1 <;> cases h2 : Atoi p2 <;>
      simp [h0, h1, h2]

/-- C6 (amended): `parseVersion` strips one leading `v`, splits on `.`,
fills major/minor/patch left-to-right with missing trailing components
defaulting to 0, and fails iff any of the *first three* present components
is non-numeric; components beyond the third are ignored.  In particular,
on versions of at most three components it behaves exactly as the claim
states. -/
theorem C6_parse_version (version : List Char) :
    ((splitOnChar '.' (stripLeadingV version)).length ≤ 3 →
      parseVersion version = specParseVersion version) ∧
    ((parseVersion version).isSome =
      (((splitOnChar '.' (stripLeadingV version)).take 3).all
        fun p => (Atoi p).isSome)) :=
  ⟨fun h => parseVersionParts_eq_spec _ h, parseVersionParts_isSome _⟩

/-- C6 (witness): instantiation at `"v1.2"` (two components, both
numeric; minor fills, patch defaults to zero). -/
theorem C6_parse_version_witness :
    (splitOnChar '.' (stripLeadingV "v1.2".data)).length ≤ 3 ∧
    parseVersion "v1.2".data = specParseVersion "v1.2".data ∧
    parseVersion "v1.2".data = some (1, 2, 0) :=
  ⟨by decide, (C6_parse_version "v1.2".data).1 (by decide), by decide⟩

/-! ## Claim C1 — constraint semantics of `CompareVersion` -/

/-- The first character is not a constraint operator (and exists). -/
def headIsNotOp (l : List Char) : Bool :=
  match l with
  | [] => false
  | c :: _ => !(c = '>' || c = '<' || c = '=' || c = '^' || c = '~')

/-- No whitespace anywhere in the string. -/
def hasNoSpace (l : List Char) : Bool := l.all fun d => !isSpaceChar d

/-- A plain version literal: nonempty, not starting with an operator
character, whitespace-free.  (Every string `parseVersion` accepts whose
components stop at the third is of this shape.) -/
def plainVersion (l : List Char) : Bool := headIsNotOp l && hasNoSpace l

theorem dropWhile_eq_self_of_all {p : Char → Bool} {l : List Char}
    (h : ∀ c ∈ l, p c = false) : l.dropWhile p = l := by
  cases l with
  | nil => rfl
  | cons c cs => exact List.dropWhile_cons_of_neg (by simp [h c (by simp)])

theorem trimSpace_of_noSpace {l : List Char} (h : hasNoSpace l = true) :
    trimSpace l = l := by
  unfold hasNoSpace at h
  simp only [List.all_eq_true] at h
  have h1 : l.dropWhile isSpaceChar = l :=
    dropWhile_eq_self_of_all fun c hc => by simpa using h c hc
  unfold trimSpace
  rw [h1]
  rw [dropWhile_eq_self_of_all fun c hc => by
    simpa using h c (by simpa using hc)]
  exact List.reverse_reverse l

theorem hasNoSpace_cons {c : Char} {l : List Char}
    (hc : isSpaceChar c = false) (h : hasNoSpace l = true) :
    hasNoSpace (c :: l) = true := by
  simp [hasNoSpace] at *
  exact ⟨hc, h⟩

theorem parseOperator_cons_ge (req : List Char) :
    parseOperator ('>' :: '=' :: req) = (.opGe, trimSpace req) := rfl

theorem parseOperator_cons_le (req : List Char) :
    parseOperator ('<' :: '=' :: req) = (.opLe, trimSpace req) := rfl

theorem parseOperator_cons_eq (req : List Char) :
    parseOperator ('=' :: req) = (.opEq, trimSpace req) := rfl

theorem parseOperator_cons_caret (req : List Char) :
    parseOperator ('^' :: req) = (.opCaret, trimSpace req) := rfl

theorem parseOperator_cons_tilde (req : List Char) :
    parseOperator ('~' :: req) = (.opTilde, trimSpace req) := rfl

theorem parseOperator_cons_gt (req : List Char) (h : headIsNotOp req = true) :
    parseOperator ('>' :: req) = (.opGt, trimSpace req) := by
  cases req with
  | nil => simp [headIsNotOp] at h
  | cons d rest =>
    simp only [headIsNotOp, Bool.not_eq_eq_eq_not, Bool.not_true,
      Bool.or_eq_false_iff, decide_eq_false_iff_not] at h
    unfold parseOperator
    rw [if_neg, if_neg, if_pos]
    · rfl
    · simp [startsWithChars]
    · simp [startsWithChars]
    · simp [startsWithChars]
      intro he
      exact h.1.1.2 he.symm

theorem parseOperator_cons_lt (req : List Char) (h : headIsNotOp req = true) :
    parseOperator ('<' :: req) = (.opLt, trimSpace req) := by
  cases req with
  | nil => simp [headIsNotOp] at h
  | cons d rest =>
    simp only [headIsNotOp, Bool.not_eq_eq_eq_not, Bool.not_true,
      Bool.or_eq_false_iff, decide_eq_false_iff_not] at h
    unfold parseOperator
    rw [if_neg, if_neg, if_neg, if_pos]
    · rfl
    · simp [startsWithChars]
    · simp [startsWithChars]
    · simp [startsWithChars]
      intro he
      exact h.1.1.2 he.symm
    · simp [startsWithChars]

theorem parseOperator_noOp (req : List Char) (h : headIsNotOp req = true) :
    parseOperator req = (.opEq, req) := by
  cases req with
  | nil => simp [headIsNotOp] at h
  | cons d rest =>
    simp only [headIsNotOp, Bool.not_eq_eq_eq_not, Bool.not_true,
      Bool.or_eq_false_iff, decide_eq_false_iff_not] at h
    obtain ⟨⟨⟨⟨h1, h2⟩, h3⟩, h4⟩, h5⟩ := h
    unfold parseOperator
    rw [if_neg, if_neg, if_neg, if_neg, if_neg, if_neg, if_neg] <;>
      simp [startsWithChars] <;> intro he
    · exact h5 he.symm
    · exact h4 he.symm
    · exact h3 he.symm
    · exact h2 he.symm
    · exact h1 he.symm
    · exact absurd he.symm h2
    · exact absurd he.symm h1

/-- The per-operator decision of `CompareVersion` on parsed versions. -/
def opSemantics (op : VersionOp) (c r : Int × Int × Int) : Bool :=
  match op with
  | .opGe => decide (0 ≤ compareVersionParts c r)
  | .opGt => decide (0 < compareVersionParts c r)
  | .opLe => decide (compareVersionParts c r ≤ 0)
  | .opLt => decide (compareVersionParts c r < 0)
  | .opEq => decide (compareVersionParts c r = 0)
  | .opCaret =>
    if compareVersionParts c r < 0 then false else decide (c.1 = r.1)
  | .opTilde =>
    if compareVersionParts c r < 0 then false
    else decide (c.1 = r.1 ∧ c.2.1 = r.2.1)

/-- Evaluating `CompareVersion` once the operator split and both parses
are known. -/
theorem CompareVersion_eval (cur req0 rv : List Char) (op : VersionOp)
    (c r : Int × Int × Int)
    (htrim : trimSpace req0 = req0)
    (hop : parseOperator req0 = (op, rv))
    (hc : parseVersion cur = some c) (hr : parseVersion rv = some r) :
    CompareVersion cur req0 = some (opSemantics op c r) := by
  simp only [CompareVersion]
  have h1 : (parseOperator req0).1 = op := by rw [hop]
  have h2 : (parseOperator req0).2 = rv := by rw [hop]
  rw [htrim, h1, h2, hc, hr]
  rfl

/-- `compareVersionParts` returns 0 exactly on equal triples. -/
theorem compareVersionParts_eq_zero (a b : Int × Int × Int) :
    compareVersionParts a b = 0 ↔ a = b := by
  obtain ⟨a1, a2, a3⟩ := a
  obtain ⟨b1, b2, b3⟩ := b
  simp only [compareVersionParts, Prod.mk.injEq]
  split_ifs <;> simp <;> omega

/-- `compareVersionParts` is positive exactly on lexicographically greater
triples. -/
theorem compareVersionParts_pos (a b : Int × Int × Int) :
    0 < compareVersionParts a b ↔
      (b.1 < a.1 ∨ (b.1 = a.1 ∧ (b.2.1 < a.2.1 ∨
        (b.2.1 = a.2.1 ∧ b.2.2 < a.2.2)))) := by
  obtain ⟨a1, a2, a3⟩ := a
  obtain ⟨b1, b2, b3⟩ := b
  simp only [compareVersionParts]
  split_ifs <;> simp <;> omega

/-- `compareVersionParts` is negative exactly on lexicographically smaller
triples. -/
theorem compareVersionParts_neg (a b : Int × Int × Int) :
    compareVersionParts a b < 0 ↔
      (a.1 < b.1 ∨ (a.1 = b.1 ∧ (a.2.1 < b.2.1 ∨
        (a.2.1 = b.2.1 ∧ a.2.2 < b.2.2)))) := by
  obtain ⟨a1, a2, a3⟩ := a
  obtain ⟨b1, b2, b3⟩ := b
  simp only [compareVersionParts]
  split_ifs <;> simp <;> omega

/-- The caret/tilde guard rewritten as a conjunction. -/
theorem ite_lt_zero_decide (x : Int) (P : Prop) [Decidable P] :
    (if x < 0 then false else decide P) = decide (0 ≤ x ∧ P) := by
  split <;> rename_i h
  · have hn : ¬(0 ≤ x ∧ P) := fun hcon => absurd hcon.1 (by omega)
    simp [hn]
  · have h0 : 0 ≤ x := by omega
    by_cases hP : P
    · simp [hP, h0]
    · simp [hP]

/-- C1: for parseable versions, `CompareVersion` implements the constraint
semantics — each comparison operator translates the three-way comparison
of `(major, minor, patch)` (characterized against lexicographic order
below), a missing operator means exact equality, `^` holds iff
current ≥ required with equal majors, and `~` holds iff current ≥ required
with equal majors and minors — together with the spec's five concrete
examples. -/
theorem C1_satisfies_constraint_semantics (cur req : List Char)
    (c r : Int × Int × Int)
    (hc : parseVersion cur = some c) (hr : parseVersion req = some r)
    (hp : plainVersion req = true) :
    (CompareVersion cur ('>' :: '=' :: req) =
      some (decide (0 ≤ compareVersionParts c r))) ∧
    (CompareVersion cur ('>' :: req) =
      some (decide (0 < compareVersionParts c r))) ∧
    (CompareVersion cur ('<' :: '=' :: req) =
      some (decide (compareVersionParts c r ≤ 0))) ∧
    (CompareVersion cur ('<' :: req) =
      some (decide (compareVersionParts c r < 0))) ∧
    (CompareVersion cur ('=' :: req) =
      some (decide (compareVersionParts c r = 0))) ∧
    (CompareVersion cur req = some (decide (compareVersionParts c r = 0))) ∧
    (CompareVersion cur ('^' :: req) =
      some (decide (0 ≤ compareVersionParts c r ∧ c.1 = r.1))) ∧
    (CompareVersion cur ('~' :: req) =
      some (decide (0 ≤ compareVersionParts c r ∧ c.1 = r.1 ∧
        c.2.1 = r.2.1))) ∧
    (compareVersionParts c r = 0 ↔ c = r) ∧
    (0 < compareVersionParts c r ↔
      (r.1 < c.1 ∨ (r.1 = c.1 ∧ (r.2.1 < c.2.1 ∨
        (r.2.1 = c.2.1 ∧ r.2.2 < c.2.2))))) ∧
    (compareVersionParts c r < 0 ↔
      (c.1 < r.1 ∨ (c.1 = r.1 ∧ (c.2.1 < r.2.1 ∨
        (c.2.1 = r.2.1 ∧ c.2.2 < r.2.2))))) ∧
    Satisfies "1.2.4" "^1.2.3" = some true ∧
    Satisfies "2.0.0" "^1.2.3" = some false ∧
    Satisfies "1.3.0" "~1.2.3" = some false ∧
    Satisfies "1.2.4" "~1.2.3" = some true ∧
    Satisfies "3.11.5" ">=3.11.0" = some true := by
  have hops : headIsNotOp req = true := by
    unfold plainVersion at hp
    exact (Bool.and_eq_true_iff.mp hp).1
  have hsp : hasNoSpace req = true := by
    unfold plainVersion at hp
    exact (Bool.and_eq_true_iff.mp hp).2
  have htr : trimSpace req = req := trimSpace_of_noSpace hsp
  have hs1 : ∀ d : Char, isSpaceChar d = false →
      hasNoSpace (d :: req) = true := fun d hd => hasNoSpace_cons hd hsp
  have hs2 : ∀ d e : Char, isSpaceChar d = false → isSpaceChar e = false →
      hasNoSpace (d :: e :: req) = true :=
    fun d e hd he => hasNoSpace_cons hd (hasNoSpace_cons he hsp)
  refine ⟨?_, ?_, ?_, ?_, ?_, ?_, ?_, ?_,
    compareVersionParts_eq_zero c r, compareVersionParts_pos c r,
    compareVersionParts_neg c r,
    by decide, by decide, by decide, by decide, by decide⟩
  · exact CompareVersion_eval cur _ req .opGe c r
      (trimSpace_of_noSpace (hs2 '>' '=' rfl rfl))
      (by rw [parseOperator_cons_ge, htr]) hc hr
  · exact CompareVersion_eval cur _ req .opGt c r
      (trimSpace_of_noSpace (hs1 '>' rfl))
      (by rw [parseOperator_cons_gt req hops, htr]) hc hr
  · exact CompareVersion_eval cur _ req .opLe c r
      (trimSpace_of_noSpace (hs2 '<' '=' rfl rfl))
      (by rw [parseOperator_cons_le, htr]) hc hr
  · exact CompareVersion_eval cur _ req .opLt c r
      (trimSpace_of_noSpace (hs1 '<' rfl))
      (by rw [parseOperator_cons_lt req hops, htr]) hc hr
  · exact CompareVersion_eval cur _ req .opEq c r
      (trimSpace_of_noSpace (hs1 '=' rfl))
      (by rw [parseOperator_cons_eq, htr]) hc hr
  · exact CompareVersion_eval cur req req .opEq c r htr
      (parseOperator_noOp req hops) hc hr
  · rw [CompareVersion_eval cur _ req .opCaret c r
      (trimSpace_of_noSpace (hs1 '^' rfl))
      (by rw [parseOperator_cons_caret, htr]) hc hr]
    show some (if compareVersionParts c r < 0 then false else _) = _
    rw [ite_lt_zero_decide]
  · rw [CompareVersion_eval cur _ req .opTilde c r
      (trimSpace_of_noSpace (hs1 '~' rfl))
      (by rw [parseOperator_cons_tilde, htr]) hc hr]
    show some (if compareVersionParts c r < 0 then false else _) = _
    rw [ite_lt_zero_decide]

/-- C1 (witness): instantiation at current `1.2.3` against required
`1.2.2`, exercising the caret conjunct. -/
theorem C1_satisfies_constraint_semantics_witness :
    parseVersion "1.2.3".data = some (1, 2, 3) ∧
    parseVersion "1.2.2".data = some (1, 2, 2) ∧
    plainVersion "1.2.2".data = true ∧
    CompareVersion "1.2.3".data ('^' :: "1.2.2".data) = some true := by
  refine ⟨by decide, by decide, by decide, ?_⟩
  have h := (C1_satisfies_constraint_semantics "1.2.3".data "1.2.2".data
    (1, 2, 3) (1, 2, 2) (by decide) (by decide) (by decide)).2.2.2.2.2.2.1
  rw [h]
  decide

/-! ## Claim C5 — character-level groundwork -/

theorem toNat_ofNat_valid (n : Nat) (h : Nat.isValidChar n) :
    (Char.ofNat n).toNat = n := by
  simp [Char.ofNat, dif_pos h, Char.ofNatAux, Char.toNat, UInt32.toNat]

theorem isUpperChar_iff (c : Char) :
    isUpperChar c = true ↔ 65 ≤ c.toNat ∧ c.toNat ≤ 90 := by
  simp [isUpperChar]

theorem toNat_toLowerChar (c : Char) :
    (toLowerChar c).toNat = if isUpperChar c then c.toNat + 32 else c.toNat := by
  unfold toLowerChar
  split
  · next h =>
    have hb : 65 ≤ c.toNat ∧ c.toNat ≤ 90 := (isUpperChar_iff c).mp h
    exact toNat_ofNat_valid _ (Or.inl (by omega))
  · rfl

theorem toNat_toUpperChar (c : Char) :
    (toUpperChar c).toNat =
      if 97 ≤ c.toNat && c.toNat ≤ 122 then c.toNat - 32 else c.toNat := by
  unfold toUpperChar
  split
  · next h =>
    have hb : 97 ≤ c.toNat ∧ c.toNat ≤ 122 := by simpa using h
    exact toNat_ofNat_valid _ (Or.inl (by omega))
  · rfl

theorem isUpperChar_toLowerChar (c : Char) :
    isUpperChar (toLowerChar c) = false := by
  have h := toNat_toLowerChar c
  rw [Bool.eq_false_iff, Ne, isUpperChar_iff, h]
  split <;> rename_i hc <;> simp [isUpperChar] at hc ⊢ <;> omega

theorem toLowerChar_eq_self (c : Char) (h : isUpperChar c = false) :
    toLowerChar c = c := by
  simp [toLowerChar, h]

theorem toLowerChar_idem (c : Char) :
    toLowerChar (toLowerChar c) = toLowerChar c :=
  toLowerChar_eq_self _ (isUpperChar_toLowerChar c)

theorem toNat_inj (c d : Char) (h : c.toNat = d.toNat) : c = d := by
  apply Char.eq_of_val_eq
  exact UInt32.toNat.inj h

theorem eq_char_iff_toNat (x d : Char) : x = d ↔ x.toNat = d.toNat :=
  ⟨fun h => by rw [h], fun h => toNat_inj _ _ h⟩

theorem toLowerChar_ne (c d : Char)
    (hd : d.toNat < 97 ∨ 122 < d.toNat) (h : c ≠ d) : toLowerChar c ≠ d := by
  intro he
  have hn := toNat_toLowerChar c
  rw [he] at hn
  split at hn
  · next hu =>
    have hb := (isUpperChar_iff c).mp hu
    omega
  · exact h (toNat_inj c d hn.symm)

theorem toUpperChar_toUpperChar (c : Char) :
    toUpperChar (toUpperChar c) = toUpperChar c := by
  apply toNat_inj
  rw [toNat_toUpperChar, toNat_toUpperChar c]
  split <;> rename_i hc
  · simp at hc
    split <;> rename_i hd
    · simp at hd; omega
    · rfl
  · rfl

/-! ### `collapseRuns` properties -/

/-- No two adjacent separators. -/
def noAdjSep (sep : Char) : List Char → Bool
  | [] => true
  | [_] => true
  | c :: d :: cs => !(c = sep && d = sep) && noAdjSep sep (d :: cs)

theorem collapseRuns_cons (sep : Char) :
    ∀ (d : Char) (cs : List Char),
      ∃ t : List Char, collapseRuns sep (d :: cs) = d :: t := by
  intro d cs
  induction cs generalizing d with
  | nil => exact ⟨[], rfl⟩
  | cons e cs2 ih =>
    unfold collapseRuns
    split
    · next h =>
      obtain ⟨t, ht⟩ := ih e
      exact ⟨t, by rw [ht, h.1, h.2]⟩
    · exact ⟨collapseRuns sep (e :: cs2), rfl⟩

theorem noAdjSep_collapseRuns (sep : Char) :
    ∀ l : List Char, noAdjSep sep (collapseRuns sep l) = true
  | [] => rfl
  | [_] => rfl
  | c :: d :: cs => by
    unfold collapseRuns
    split
    · exact noAdjSep_collapseRuns sep (d :: cs)
    · next h =>
      obtain ⟨t, ht⟩ := collapseRuns_cons sep d cs
      rw [ht]
      have hrec := noAdjSep_collapseRuns sep (d :: cs)
      rw [ht] at hrec
      unfold noAdjSep
      rw [hrec]
      simp only [Bool.and_true, Bool.not_eq_eq_eq_not, Bool.not_true,
        Bool.and_eq_false_iff]
      by_cases hcs : c = sep
      · by_cases hds : d = sep
        · exact absurd ⟨hcs, hds⟩ h
        · exact Or.inr (by simp [hds])
      · exact Or.inl (by simp [hcs])

theorem collapseRuns_of_noAdjSep (sep : Char) :
    ∀ l : List Char, noAdjSep sep l = true → collapseRuns sep l = l
  | [], _ => rfl
  | [_], _ => rfl
  | c :: d :: cs, h => by
    unfold noAdjSep at h
    simp only [Bool.and_eq_true, Bool.not_eq_eq_eq_not, Bool.not_true,
      Bool.and_eq_false_iff] at h
    unfold collapseRuns
    rw [if_neg, collapseRuns_of_noAdjSep sep (d :: cs) h.2]
    rcases h.1 with h1 | h1 <;> simp [h1] <;> intro hc <;> simp_all

theorem collapseRuns_idem (sep : Char) (l : List Char) :
    collapseRuns sep (collapseRuns sep l) = collapseRuns sep l :=
  collapseRuns_of_noAdjSep sep _ (noAdjSep_collapseRuns sep l)

theorem mem_collapseRuns (sep : Char) :
    ∀ (l : List Char) (x : Char), x ∈ collapseRuns sep l → x ∈ l
  | [], _, hx => by simp [collapseRuns] at hx
  | [c], x, hx => by simpa [collapseRuns] using hx
  | c :: d :: cs, x, hx => by
    unfold collapseRuns at hx
    split at hx
    · exact List.mem_cons_of_mem c (mem_collapseRuns sep (d :: cs) x hx)
    · rcases List.mem_cons.mp hx with h | h
      · exact h ▸ List.mem_cons_self c _
      · exact List.mem_cons_of_mem c (mem_collapseRuns sep (d :: cs) x h)

/-! ### `insertSepLower` and `replaceAllChar` properties -/

theorem mem_insertSepLower (sep : Char) (l : List Char) (x : Char)
    (hx : x ∈ insertSepLower sep l) :
    x = sep ∨ ∃ y, y ∈ l ∧ x = toLowerChar y := by
  cases l with
  | nil => simp [insertSepLower] at hx
  | cons c cs =>
    unfold insertSepLower at hx
    rcases List.mem_cons.mp hx with h | h
    · exact Or.inr ⟨c, by simp, h⟩
    · rw [List.mem_flatMap] at h
      obtain ⟨d, hd, hin⟩ := h
      split at hin
      · rcases List.mem_cons.mp hin with h1 | h1
        · exact Or.inl h1
        · simp at h1
          exact Or.inr ⟨d, by simp [hd], h1⟩
      · simp at hin
        exact Or.inr ⟨d, by simp [hd], hin⟩

theorem flatMapLower_eq_self (sep : Char) (cs : List Char)
    (h1 : ∀ c ∈ cs, isUpperChar c = false)
    (h2 : ∀ c ∈ cs, toLowerChar c = c) :
    (cs.flatMap fun d =>
      if isUpperChar d then [sep, toLowerChar d] else [toLowerChar d]) = cs := by
  induction cs with
  | nil => rfl
  | cons d ds ih =>
    rw [List.flatMap_cons, if_neg (by simp [h1 d (by simp)]), h2 d (by simp),
      ih (fun x hx => h1 x (by simp [hx])) (fun x hx => h2 x (by simp [hx]))]
    rfl

theorem insertSepLower_eq_self (sep : Char) (l : List Char)
    (h1 : ∀ c ∈ l, isUpperChar c = false)
    (h2 : ∀ c ∈ l, toLowerChar c = c) :
    insertSepLower sep l = l := by
  cases l with
  | nil => rfl
  | cons c cs =>
    show toLowerChar c :: (cs.flatMap fun d =>
      if isUpperChar d then [sep, toLowerChar d] else [toLowerChar d]) = c :: cs
    rw [h2 c (by simp),
      flatMapLower_eq_self sep cs (fun x hx => h1 x (by simp [hx]))
        (fun x hx => h2 x (by simp [hx]))]

theorem replaceAllChar_eq_self (a b : Char) (l : List Char)
    (h : ∀ c ∈ l, c ≠ a) : replaceAllChar a b l = l := by
  unfold replaceAllChar
  induction l with
  | nil => rfl
  | cons c cs ih =>
    rw [List.map_cons, if_neg (h c (by simp)), ih fun x hx => h x (by simp [hx])]

theorem mem_replaceAllChar_ne (a b : Char) (l : List Char) (hba : b ≠ a) :
    ∀ c ∈ replaceAllChar a b l, c ≠ a := by
  intro c hc
  unfold replaceAllChar at hc
  rw [List.mem_map] at hc
  obtain ⟨x, _, hx⟩ := hc
  by_cases hxa : x = a
  · rw [← hx, if_pos hxa]
    exact hba
  · rw [← hx, if_neg hxa]
    exact hxa

/-! ### Snake/kebab pipeline idempotence -/

/-- One application of the snake/kebab pipeline fixes its own output:
the output contains no occurrence of the replaced character, no uppercase,
only lowercase-fixed characters, and no separator runs. -/
theorem casingPipeline_idem (sep other : Char)
    (hsep_up : isUpperChar sep = false)
    (hsep_low : toLowerChar sep = sep)
    (hsep_ne : sep ≠ other)
    (hother_range : other.toNat < 97 ∨ 122 < other.toNat)
    (l : List Char) :
    collapseRuns sep (insertSepLower sep (replaceAllChar other sep
      (collapseRuns sep (insertSepLower sep (replaceAllChar other sep l))))) =
    collapseRuns sep (insertSepLower sep (replaceAllChar other sep l)) := by
  set r1 := replaceAllChar other sep l with hr1
  set b1 := insertSepLower sep r1 with hb1
  set out := collapseRuns sep b1 with hout
  have hmem : ∀ x ∈ out, x = sep ∨ ∃ y, y ∈ r1 ∧ x = toLowerChar y := by
    intro x hx
    exact mem_insertSepLower sep r1 x (mem_collapseRuns sep b1 x hx)
  have hno_other : ∀ x ∈ out, x ≠ other := by
    intro x hx
    rcases hmem x hx with h | ⟨y, hy, hxy⟩
    · rw [h]; exact hsep_ne
    · rw [hxy]
      exact toLowerChar_ne y other hother_range
        (mem_replaceAllChar_ne other sep l hsep_ne y hy)
  have hnoup : ∀ x ∈ out, isUpperChar x = false := by
    intro x hx
    rcases hmem x hx with h | ⟨y, _, hxy⟩
    · rw [h]; exact hsep_up
    · rw [hxy]; exact isUpperChar_toLowerChar y
  have hfix : ∀ x ∈ out, toLowerChar x = x := by
    intro x hx
    rcases hmem x hx with h | ⟨y, _, hxy⟩
    · rw [h]; exact hsep_low
    · rw [hxy]; exact toLowerChar_idem y
  rw [replaceAllChar_eq_self other sep out hno_other,
    insertSepLower_eq_self sep out hnoup hfix, hout]
  exact collapseRuns_idem sep b1

/-! ### Pascal pipeline idempotence -/

/-- `splitSeps` never returns the empty list of pieces. -/
theorem splitSeps_ne_nil : ∀ l : List Char, splitSeps l ≠ [] := by
  intro l
  cases l with
  | nil => simp [splitSeps]
  | cons a cs =>
    unfold splitSeps
    cases splitSeps cs with
    | nil => simp
    | cons p0 ps =>
      dsimp only
      by_cases ha : isSepChar a = true
      · rw [if_pos ha]
        cases cs with
        | nil => simp
        | cons d cs2 =>
          dsimp only
          by_cases hd : isSepChar d = true
          · rw [if_pos hd]; simp
          · rw [if_neg hd]; simp
      · rw [if_neg ha]; simp

/-- Every character of every piece of `splitSeps` is a non-separator. -/
theorem splitSeps_chars :
    ∀ (l : List Char) (p : List Char), p ∈ splitSeps l →
      ∀ c ∈ p, isSepChar c = false := by
  intro l
  induction l with
  | nil =>
    intro p hp c hc
    simp [splitSeps] at hp
    subst hp
    simp at hc
  | cons a cs ih =>
    intro p hp c hc
    obtain ⟨p0, ps, hs⟩ := List.exists_cons_of_ne_nil (splitSeps_ne_nil cs)
    unfold splitSeps at hp
    rw [hs] at hp
    dsimp only at hp
    by_cases ha : isSepChar a = true
    · rw [if_pos ha] at hp
      cases cs with
      | nil =>
        simp [splitSeps] at hs
        obtain ⟨h1, h2⟩ := hs
        subst h1; subst h2
        simp at hp
        subst hp
        simp at hc
      | cons d cs2 =>
        dsimp only at hp
        by_cases hd : isSepChar d = true
        · rw [if_pos hd] at hp
          exact ih p (by rw [hs]; exact hp) c hc
        · rw [if_neg hd] at hp
          rcases List.mem_cons.mp hp with h | h
          · subst h; simp at hc
          · exact ih p (by rw [hs]; exact h) c hc
    · rw [if_neg ha] at hp
      rcases List.mem_cons.mp hp with h | h
      · subst h
        rcases List.mem_cons.mp hc with h1 | h1
        · subst h1; simpa using ha
        · exact ih p0 (by rw [hs]; simp) c h1
      · exact ih p (by rw [hs]; simp [h]) c hc

/-- A separator-free string is returned as a single piece. -/
theorem splitSeps_of_no_sep (l : List Char)
    (h : ∀ c ∈ l, isSepChar c = false) : splitSeps l = [l] := by
  induction l with
  | nil => rfl
  | cons a cs ih =>
    unfold splitSeps
    rw [ih fun c hc => h c (List.mem_cons_of_mem a hc)]
    simp [h a (List.mem_cons_self a cs)]

/-- Separator characters as scalar values. -/
theorem isSepChar_iff (x : Char) :
    isSepChar x = true ↔
      (x.toNat = 45 ∨ x.toNat = 95 ∨ x.toNat = 32 ∨ x.toNat = 9 ∨
        x.toNat = 10 ∨ x.toNat = 12 ∨ x.toNat = 13) := by
  simp only [isSepChar, Bool.or_eq_true, decide_eq_true_eq,
    eq_char_iff_toNat,
    show ('-').toNat = 45 from rfl, show ('_').toNat = 95 from rfl,
    show (' ').toNat = 32 from rfl, show ('\t').toNat = 9 from rfl,
    show ('\n').toNat = 10 from rfl, show ('\x0c').toNat = 12 from rfl,
    show ('\r').toNat = 13 from rfl]
  tauto

/-- Capitalizing a non-separator yields a non-separator. -/
theorem isSepChar_toUpperChar (c : Char) (hc : isSepChar c = false) :
    isSepChar (toUpperChar c) = false := by
  rw [Bool.eq_false_iff, Ne, isSepChar_iff, toNat_toUpperChar]
  rw [Bool.eq_false_iff, Ne, isSepChar_iff] at hc
  split <;> rename_i hr
  · simp at hr; omega
  · exact hc

/-- The pascal join of separator-free pieces is separator-free. -/
theorem pascalConcat_no_sep (ps : List (List Char))
    (h : ∀ p ∈ ps, ∀ c ∈ p, isSepChar c = false) :
    ∀ x ∈ pascalConcat ps, isSepChar x = false := by
  induction ps with
  | nil => intro x hx; simp [pascalConcat] at hx
  | cons p ps2 ih =>
    intro x hx
    unfold pascalConcat at hx
    rw [List.mem_append] at hx
    rcases hx with hx | hx
    · split at hx
      · simp at hx
      · cases p with
        | nil => simp [capitalize] at hx
        | cons c cs =>
          rcases List.mem_cons.mp hx with h1 | h1
          · rw [h1]
            exact isSepChar_toUpperChar c (h (c :: cs) (by simp) c (by simp))
          · exact h (c :: cs) (by simp) x (by simp [h1])
    · exact ih (fun q hq => h q (by simp [hq])) x hx

/-- The pascal join is empty or starts with a capitalized character. -/
theorem pascalConcat_head (ps : List (List Char)) :
    pascalConcat ps = [] ∨
      ∃ y t, pascalConcat ps = toUpperChar y :: t := by
  induction ps with
  | nil => exact Or.inl rfl
  | cons p ps2 ih =>
    unfold pascalConcat
    cases p with
    | nil => simpa using ih
    | cons c cs =>
      right
      exact ⟨c, cs ++ pascalConcat ps2, by simp [capitalize]⟩

/-- The pascal pipeline fixes its own output. -/
theorem pascalPipeline_idem (l : List Char) :
    pascalConcat (splitSeps (pascalConcat (splitSeps l))) =
      pascalConcat (splitSeps l) := by
  set out := pascalConcat (splitSeps l) with hout
  have hchars : ∀ x ∈ out, isSepChar x = false :=
    pascalConcat_no_sep (splitSeps l) (splitSeps_chars l)
  rw [splitSeps_of_no_sep out hchars]
  rcases pascalConcat_head (splitSeps l) with h | ⟨y, t, h⟩
  · rw [hout, h]
    rfl
  · rw [hout, h]
    show (if (toUpperChar y :: t).isEmpty then []
      else capitalize (toUpperChar y :: t)) ++ pascalConcat [] =
        toUpperChar y :: t
    simp [capitalize, pascalConcat, toUpperChar_toUpperChar]

/-- C5 (counterexample): `toCamelCase` is not idempotent — re-applying it
fully lowercases the first (only) split part of its own output:
`toCamel("a-b") = "aB"` but `toCamel("aB") = "ab"`. -/
theorem C5_camel_counterexample :
    toCamelCase (toCamelCase "a-b") ≠ toCamelCase "a-b" := by decide

/-- C5 (amended): `toSnake`, `toKebab` and `toPascal` are idempotent on
every input, but `toCamel` is not (its output's single remaining part is
lowercased wholesale on a second application, as witnessed at `"a-b"`). -/
theorem C5_casing_idempotence (s : String) :
    toSnakeCase (toSnakeCase s) = toSnakeCase s ∧
    toKebabCase (toKebabCase s) = toKebabCase s ∧
    toPascalCase (toPascalCase s) = toPascalCase s ∧
    toCamelCase (toCamelCase "a-b") ≠ toCamelCase "a-b" := by
  refine ⟨?_, ?_, ?_, by decide⟩
  · exact congrArg String.mk
      (casingPipeline_idem '_' '-' (by decide) (by decide) (by decide)
        (by decide) s.data)
  · exact congrArg String.mk
      (casingPipeline_idem '-' '_' (by decide) (by decide) (by decide)
        (by decide) s.data)
  · exact congrArg String.mk (pascalPipeline_idem s.data)

/-- A two-file demonstration template: an unconditional renderable file
and a Docker file guarded by `IncludeDocker`. -/
def tmplDemo : Template :=
  { Version := "1.0.0", Name := "demo", Language := "python"
    Framework := "fastapi", Variables := fun _ => none
    Files :=
      [ { Source := "main.py.tmpl", Destination := "main.py.tmpl"
          Conditions := [], Permissions := "" },
        { Source := "Dockerfile", Destination := "Dockerfile"
          Conditions := ["IncludeDocker"], Permissions := "" } ]
    Path := "tpl" }

/-- Demonstration options: no output-directory override, no variables. -/
def optsDemo : Options :=
  { ProjectName := "demo", Language := "python", Framework := "fastapi"
    OutputDir := "", Variables := fun _ => none, DryRun := true }

/-- C3 (witness): on the demonstration template, the dry run emits the
would-render notice for the unconditional file, and that action is not a
filesystem mutation. -/
theorem C3_dry_run_frame_witness :
    FsAction.noticeWouldRender "main.py.tmpl" "demo/main.py" ∈
      Generate tmplDemo { optsDemo with DryRun := true } ∧
    (FsAction.noticeWouldRender "main.py.tmpl" "demo/main.py").isMutation =
      false :=
  ⟨by decide, (C3_dry_run_frame tmplDemo optsDemo).1 _ (by decide)⟩
